import Mathlib

/-!
# Verification of the phiacta transactional-outbox / webhook subsystem

Shallow embedding of the reconciliation worker
(`src/phiacta/services/outbox_worker.py`), the external git-store service
wrapper (`src/phiacta/services/git_service.py`), the outbox row model
(`src/phiacta/models/outbox.py`) and the inbound webhook receiver
(`src/phiacta/webhooks/forgejo.py`), together with proofs of the
behavioural claims about them.

Conventions used throughout:
* timestamps are `Nat` (the claims only need "is set" / "equals"),
* JSON payloads are association lists `List (String × String)`,
* the external Forgejo server is modelled as an explicit state record
  threaded through the service calls, with a call log recording which
  external endpoints were invoked and in which order,
* Python exceptions are `Except String` results.
-/

set_option autoImplicit false

namespace Phiacta

/-- Outbox entry status values, from `OutboxStatus` in
`phiacta/models/outbox.py` (also enforced there by `ck_outbox_status`). -/
inductive OutboxStatus where
  | pending
  | processing
  | completed
  | failed
deriving DecidableEq, Repr

/-- One row of the `outbox` table, fields from the `Outbox` model in
`phiacta/models/outbox.py` (`id`/`created_at` come from its mixins;
`payload` is a JSONB document, modelled as a string association list). -/
structure OutboxEntry where
  id : Nat
  createdAt : Nat
  operation : String
  payload : List (String × String)
  status : OutboxStatus
  attempts : Nat
  maxAttempts : Nat
  lastError : Option String
  processedAt : Option Nat
  retryAfter : Option Nat
deriving DecidableEq, Repr

/-- `OutboxWorker._mark_retry`: increment `attempts`, set `status` to
`"failed"` if `new_attempts >= entry.max_attempts` else back to
`"pending"`, and record `last_error` truncated to 2000 characters.
No other column is written. -/
def markRetry (e : OutboxEntry) (error : String) : OutboxEntry :=
  let newAttempts := e.attempts + 1
  let newStatus :=
    if e.maxAttempts ≤ newAttempts then OutboxStatus.failed else OutboxStatus.pending
  { e with
    status := newStatus
    attempts := newAttempts
    lastError := some (error.take 2000) }

/-- Outcome of `OutboxWorker._dispatch` for one entry: it either returns
normally or raises some exception (all exception classes are handled
identically by `_process_entry`, each arm calling `_mark_retry`). -/
inductive DispatchOutcome where
  | success
  | failure (error : String)
deriving DecidableEq, Repr

/-- `OutboxWorker._process_entry`: on a successful dispatch the entry is
updated to `status="completed"`, `processed_at=now`,
`attempts=entry.attempts+1`; on any exception `_mark_retry` runs. -/
def processEntry (e : OutboxEntry) (outcome : DispatchOutcome) (now : Nat) : OutboxEntry :=
  match outcome with
  | .success =>
      { e with
        status := OutboxStatus.completed
        processedAt := some now
        attempts := e.attempts + 1 }
  | .failure err => markRetry e err

/-- The claiming query of `OutboxWorker._process_batch` selects rows with
`Outbox.status == "pending"` only. -/
def claimable (e : OutboxEntry) : Bool :=
  e.status == OutboxStatus.pending

/-- **C1.** For every claimed outbox entry (status `processing`,
`processed_at` still unset), one dispatch produces exactly one of two
transitions: on success the status becomes `completed`, `processed_at` is
set to the current time and `attempts` increases by exactly 1; on any
exception `attempts` increases by exactly 1 and the status becomes
`pending` exactly when the new attempts value is below `max_attempts`,
and `failed` otherwise. In all cases `attempts` grows by exactly 1, and
`processed_at` is set if and only if the status is `completed`. -/
theorem outbox_dispatch_single_step (e : OutboxEntry) (o : DispatchOutcome) (now : Nat)
    (hclaimed : e.status = OutboxStatus.processing)
    (hpa : e.processedAt = none) :
    (processEntry e o now).attempts = e.attempts + 1 ∧
    (o = DispatchOutcome.success →
      (processEntry e o now).status = OutboxStatus.completed ∧
      (processEntry e o now).processedAt = some now) ∧
    (∀ err, o = DispatchOutcome.failure err →
      ((processEntry e o now).status = OutboxStatus.pending ↔
        e.attempts + 1 < e.maxAttempts) ∧
      ((processEntry e o now).status = OutboxStatus.failed ↔
        e.maxAttempts ≤ e.attempts + 1)) ∧
    ((processEntry e o now).processedAt.isSome ↔
      (processEntry e o now).status = OutboxStatus.completed) := by
  cases o with
  | success =>
      refine ⟨rfl, ?_, ?_, ?_⟩
      · intro _
        exact ⟨rfl, rfl⟩
      · intro err h
        exact absurd h (by simp)
      · simp [processEntry]
  | failure err =>
      refine ⟨rfl, ?_, ?_, ?_⟩
      · intro h
        exact absurd h (by simp)
      · intro err' _
        constructor
        · simp only [processEntry, markRetry]
          split
          · simp only [reduceCtorEq, false_iff, not_lt]
            omega
          · simp only [true_iff]
            omega
        · simp only [processEntry, markRetry]
          split
          · next hle => simpa using hle
          · next hlt => simp only [reduceCtorEq, false_iff]; omega
      · simp only [processEntry, markRetry, hpa]
        split <;> simp

/-- Witness for C1: a concrete claimed entry, dispatched successfully. -/
theorem outbox_dispatch_single_step_witness :
    (processEntry
      { id := 1, createdAt := 0, operation := "create_repo", payload := [],
        status := OutboxStatus.processing, attempts := 0, maxAttempts := 5,
        lastError := none, processedAt := none, retryAfter := none }
      DispatchOutcome.success 42).attempts = 0 + 1 :=
  (outbox_dispatch_single_step
    { id := 1, createdAt := 0, operation := "create_repo", payload := [],
      status := OutboxStatus.processing, attempts := 0, maxAttempts := 5,
      lastError := none, processedAt := none, retryAfter := none }
    DispatchOutcome.success 42 rfl rfl).1

/-- **C9.** The retry path writes only `status`, `attempts` and
`last_error`: every other column of the entry — in particular
`retry_after` — is left unchanged (so still `null` if it was `null`),
and the written values are exactly those of `_mark_retry`. -/
theorem mark_retry_frame (e : OutboxEntry) (err : String) :
    (markRetry e err).retryAfter = e.retryAfter ∧
    (markRetry e err).processedAt = e.processedAt ∧
    (markRetry e err).id = e.id ∧
    (markRetry e err).createdAt = e.createdAt ∧
    (markRetry e err).operation = e.operation ∧
    (markRetry e err).payload = e.payload ∧
    (markRetry e err).maxAttempts = e.maxAttempts ∧
    (markRetry e err).attempts = e.attempts + 1 ∧
    (markRetry e err).lastError = some (err.take 2000) ∧
    (markRetry e err).status =
      (if e.maxAttempts ≤ e.attempts + 1 then OutboxStatus.failed
       else OutboxStatus.pending) := by
  refine ⟨rfl, rfl, rfl, rfl, rfl, rfl, rfl, rfl, rfl, rfl⟩

/-- Per-entry view of the worker's actions on one outbox row, as executed
by `_process_batch` (claim: the `status == "pending"` select plus the
`status="processing"` update) and `_process_entry` (success update, or
`_mark_retry` on any exception). -/
inductive WorkerStep : OutboxEntry → OutboxEntry → Prop where
  | claim (e : OutboxEntry) :
      e.status = OutboxStatus.pending →
      WorkerStep e { e with status := OutboxStatus.processing }
  | complete (e : OutboxEntry) (now : Nat) :
      e.status = OutboxStatus.processing →
      WorkerStep e (processEntry e DispatchOutcome.success now)
  | fail (e : OutboxEntry) (err : String) :
      e.status = OutboxStatus.processing →
      WorkerStep e (markRetry e err)

/-- Inductive invariant of a single outbox row under worker steps.  The
last conjunct (a live row has spare attempts) strengthens the spec's
three invariants so that they are preserved by each step. -/
def EntryInv (e : OutboxEntry) : Prop :=
  e.attempts ≤ e.maxAttempts ∧
  (e.status = OutboxStatus.completed → e.processedAt.isSome) ∧
  (e.status = OutboxStatus.failed → e.attempts = e.maxAttempts) ∧
  ((e.status = OutboxStatus.pending ∨ e.status = OutboxStatus.processing) →
    e.attempts < e.maxAttempts)

lemma entryInv_preserved {e e' : OutboxEntry} (h : WorkerStep e e') (hi : EntryInv e) :
    EntryInv e' := by
  obtain ⟨h1, h2, h3, h4⟩ := hi
  cases h with
  | claim hp =>
      refine ⟨h1, ?_, ?_, ?_⟩ <;> simp_all
  | complete now hp =>
      have hlt : e.attempts < e.maxAttempts := h4 (Or.inr hp)
      refine ⟨?_, ?_, ?_, ?_⟩ <;> simp [processEntry] <;> omega
  | fail err hp =>
      have hlt : e.attempts < e.maxAttempts := h4 (Or.inr hp)
      refine ⟨by simp only [markRetry]; omega, ?_, ?_, ?_⟩
      · simp only [markRetry]
        split <;> simp
      · simp only [markRetry]
        split <;> simp <;> omega
      · simp only [markRetry]
        split <;> simp <;> omega

/-- One full claim-and-fail cycle on a single entry whose handler raises
on every dispatch: the poll loop claims the pending entry (marking it
`processing`), the dispatch raises, and `_mark_retry` runs.  A
non-pending entry is never selected by the claim query, hence untouched. -/
def failCycle (err : String) (e : OutboxEntry) : OutboxEntry :=
  if e.status = OutboxStatus.pending then
    markRetry { e with status := OutboxStatus.processing } err
  else e

lemma failCycle_pending {e : OutboxEntry} (err : String)
    (h : e.status = OutboxStatus.pending) :
    failCycle err e =
      { e with
        status := if e.maxAttempts ≤ e.attempts + 1 then OutboxStatus.failed
                  else OutboxStatus.pending
        attempts := e.attempts + 1
        lastError := some (err.take 2000) } := by
  cases e
  simp_all [failCycle, markRetry]

lemma failCycle_iter_pending (err : String) (e : OutboxEntry)
    (h : e.status = OutboxStatus.pending) :
    ∀ i, 0 < i → e.attempts + i < e.maxAttempts →
      (failCycle err)^[i] e =
        { e with
          status := OutboxStatus.pending
          attempts := e.attempts + i
          lastError := some (err.take 2000) } := by
  intro i
  induction i with
  | zero => omega
  | succ n ih =>
      intro _ hlt
      rcases Nat.eq_zero_or_pos n with hn | hn
      · subst hn
        rw [Function.iterate_one, failCycle_pending err h]
        have : ¬ e.maxAttempts ≤ e.attempts + 1 := by omega
        cases e
        simp_all
      · rw [Function.iterate_succ_apply',
          ih hn (by omega),
          failCycle_pending err (e := _) rfl]
        have : ¬ e.maxAttempts ≤ e.attempts + n + 1 := by omega
        cases e
        simp_all [Nat.add_assoc]

lemma failCycle_iter_exhaust (err : String) (e : OutboxEntry) (k : Nat)
    (hst : e.status = OutboxStatus.pending) (ha : e.attempts = 0)
    (hmax : e.maxAttempts = k) (hk : 0 < k) :
    (failCycle err)^[k] e =
      { e with
        status := OutboxStatus.failed
        attempts := k
        lastError := some (err.take 2000) } := by
  obtain ⟨n, rfl⟩ : ∃ n, k = n + 1 := ⟨k - 1, by omega⟩
  rcases Nat.eq_zero_or_pos n with hn | hn
  · subst hn
    rw [Function.iterate_one, failCycle_pending err hst]
    cases e
    simp_all
  · rw [Function.iterate_succ_apply',
      failCycle_iter_pending err e hst n hn (by omega),
      failCycle_pending err (e := _) rfl]
    cases e
    simp_all

lemma failCycle_not_pending {e : OutboxEntry} (err : String)
    (h : e.status ≠ OutboxStatus.pending) : failCycle err e = e := by
  simp [failCycle, h]

/-- **C2.** An entry created with `attempts = 0` and `max_attempts = k > 0`
whose handler raises on every dispatch reaches `status = "failed"` with
`attempts = k` after exactly `k` claim-and-fail cycles; any further
worker polls leave it untouched, and the claim query (which selects only
`status = "pending"` rows) never selects it again.  Along every sequence
of worker steps from the freshly created entry the invariants
`attempts ≤ max_attempts`, `completed → processed_at set` and
`failed → attempts = max_attempts` hold. -/
theorem outbox_fail_exhaustion (e : OutboxEntry) (k : Nat) (err : String)
    (hst : e.status = OutboxStatus.pending) (ha : e.attempts = 0)
    (hmax : e.maxAttempts = k) (hk : 0 < k) :
    (((failCycle err)^[k] e).status = OutboxStatus.failed ∧
      ((failCycle err)^[k] e).attempts = k) ∧
    (∀ j, (failCycle err)^[j] ((failCycle err)^[k] e) = (failCycle err)^[k] e) ∧
    claimable ((failCycle err)^[k] e) = false ∧
    (∀ e', Relation.ReflTransGen WorkerStep e e' →
      e'.attempts ≤ e'.maxAttempts ∧
      (e'.status = OutboxStatus.completed → e'.processedAt.isSome) ∧
      (e'.status = OutboxStatus.failed → e'.attempts = e'.maxAttempts)) := by
  have hfin := failCycle_iter_exhaust err e k hst ha hmax hk
  have hfail : ((failCycle err)^[k] e).status = OutboxStatus.failed := by
    rw [hfin]
  refine ⟨⟨hfail, by rw [hfin]⟩, ?_, ?_, ?_⟩
  · intro j
    exact Function.iterate_fixed
      (failCycle_not_pending err (by rw [hfail]; simp)) j
  · simp [claimable, hfail]
  · intro e' hreach
    have hinv : EntryInv e' := by
      induction hreach with
      | refl =>
          refine ⟨by omega, ?_, ?_, ?_⟩ <;> simp_all <;> omega
      | tail _ hstep ih => exact entryInv_preserved hstep ih
    exact ⟨hinv.1, hinv.2.1, hinv.2.2.1⟩

/-- Witness for C2: a concrete entry with `max_attempts = 2` that fails
both dispatches ends `failed` with `attempts = 2`. -/
theorem outbox_fail_exhaustion_witness :
    0 < 2 ∧
    ((failCycle "boom")^[2]
      { id := 7, createdAt := 0, operation := "create_branch", payload := [],
        status := OutboxStatus.pending, attempts := 0, maxAttempts := 2,
        lastError := none, processedAt := none, retryAfter := none }).status =
      OutboxStatus.failed :=
  ⟨by decide,
    (outbox_fail_exhaustion
      { id := 7, createdAt := 0, operation := "create_branch", payload := [],
        status := OutboxStatus.pending, attempts := 0, maxAttempts := 2,
        lastError := none, processedAt := none, retryAfter := none }
      2 "boom" rfl rfl rfl (by decide)).1.1⟩

/-! ## Python string primitives

Executable models of the Python string operations the source uses
(`str.replace`, `in`, `str.endswith`, `str.strip`), written on
`List Char` so that they reduce inside the kernel. -/

/-- One pass of Python `str.replace`: scan left to right, replacing
non-overlapping occurrences of `pat`.  The fuel argument (instantiated
with the list length) only serves termination; every use has a
non-empty pattern, for which the fuel is sufficient. -/
def listReplaceAux : Nat → List Char → List Char → List Char → List Char
  | 0, _, _, l => l
  | Nat.succ fuel, pat, rep, l =>
    match l with
    | [] => []
    | c :: rest =>
      if pat.isPrefixOf (c :: rest) then
        rep ++ listReplaceAux fuel pat rep ((c :: rest).drop pat.length)
      else
        c :: listReplaceAux fuel pat rep rest

/-- Python `s.replace(pat, rep)` (all occurrences, left to right). -/
def strReplace (s pat rep : String) : String :=
  String.mk (listReplaceAux s.toList.length pat.toList rep.toList s.toList)

/-- Python `pat in s` substring containment, on character lists. -/
def containsSub (pat : List Char) : List Char → Bool
  | [] => pat.isEmpty
  | c :: rest => pat.isPrefixOf (c :: rest) || containsSub pat rest

/-- Python `s.endswith(suf)`. -/
def strEndsWith (s suf : String) : Bool :=
  suf.toList.isSuffixOf s.toList

/-- Python `s.strip()` (whitespace from both ends). -/
def pyStrip (s : String) : String :=
  String.mk
    (((s.toList.dropWhile Char.isWhitespace).reverse.dropWhile
      Char.isWhitespace).reverse)

/-! ## Webhook receiver (`phiacta/webhooks/forgejo.py`) -/

/-- ASCII hex digit, as accepted inside the 32-character hex string by
Python's `uuid.UUID` constructor (the sign/underscore liberality of
Python's `int(_, 16)` on degenerate inputs is not modelled). -/
def isHexChar (c : Char) : Bool :=
  (48 ≤ c.toNat && c.toNat ≤ 57) ||
  (97 ≤ c.toNat && c.toNat ≤ 102) ||
  (65 ≤ c.toNat && c.toNat ≤ 70)

/-- A curly brace character (written via its code point). -/
def isBraceChar (c : Char) : Bool :=
  c.toNat == 0x7b || c.toNat == 0x7d

/-- Python `str.strip(chars)`: drop characters satisfying `p` from both
ends. -/
def stripChars (p : Char → Bool) (l : List Char) : List Char :=
  ((l.dropWhile p).reverse.dropWhile p).reverse

/-- `str(uuid.UUID(...))`: the canonical lowercase 8-4-4-4-12 form of a
32-character hex string. -/
def uuidCanonical (hex32 : String) : String :=
  let l := hex32.toList.map Char.toLower
  String.mk (l.take 8) ++ "-" ++ String.mk ((l.drop 8).take 4) ++ "-" ++
    String.mk ((l.drop 12).take 4) ++ "-" ++ String.mk ((l.drop 16).take 4) ++
    "-" ++ String.mk (l.drop 20)

/-- Python's `uuid.UUID(s)` on a string argument: drop `urn:` and `uuid:`
occurrences, strip surrounding braces, drop hyphens, require exactly 32
hex digits; the result is identified with its canonical string form
(`str(UUID(...))`), which is how the worker and webhook use it. -/
def parseUUID (s : String) : Option String :=
  let h := strReplace (strReplace s "urn:" "") "uuid:" ""
  let h := String.mk (stripChars isBraceChar h.toList)
  let h := strReplace h "-" ""
  if h.length == 32 && h.toList.all isHexChar then
    some (uuidCanonical h)
  else none

/-- The row of the `claims` table as touched by this subsystem
(`forgejo_repo_id`, `current_head_sha`, `repo_status`). -/
structure ClaimRow where
  forgejoRepoId : Option Nat
  currentHeadSha : Option String
  repoStatus : String
deriving DecidableEq, Repr

/-- The `claims` table keyed by the canonical claim UUID string. -/
abbrev ClaimsDb := List (String × ClaimRow)

/-- `SELECT ... FROM claims WHERE id = :claim_id` (first match). -/
def lookupClaim (db : ClaimsDb) (cid : String) : Option ClaimRow :=
  match db with
  | [] => none
  | (k, r) :: tl => if k = cid then some r else lookupClaim tl cid

/-- `UPDATE claims SET current_head_sha = :sha WHERE id = :claim_id`. -/
def updateHeadSha (db : ClaimsDb) (cid sha : String) : ClaimsDb :=
  db.map (fun kv =>
    if kv.1 = cid then (kv.1, { kv.2 with currentHeadSha := some sha }) else kv)

/-- An event handed to `dispatch_event` for extension subscribers. -/
structure DispatchedEvent where
  eventType : String
  claimId : String
  headSha : String
  ref : String
deriving DecidableEq, Repr

/-- The parts of the Forgejo push JSON payload read by `_handle_push`:
`repository.name`, `after`, `ref`, `commits[].message` (each field
defaulting to the empty value when absent, as `payload.get` does). -/
structure PushPayload where
  repoName : String
  after : String
  ref : String
  commitMessages : List String
deriving DecidableEq, Repr

/-- An incoming webhook HTTP request: raw body, the
`X-Forgejo-Signature` and `X-Forgejo-Event` headers (empty string when
absent) and the parsed JSON body. -/
structure WebhookRequest where
  body : String
  signature : String
  eventType : String
  payload : PushPayload
deriving DecidableEq, Repr

/-- HTTP response of the webhook endpoint: `200 {"status":"ok"}` or the
`HTTPException(status_code=401)` raised on signature failure. -/
inductive WebhookResponse where
  | ok
  | unauthorized
deriving DecidableEq, Repr

/-- The all-zero revision `"0" * 40` sent by Forgejo for branch
deletions. -/
def zeroSha : String := String.mk (List.replicate 40 '0')

/-- `_verify_signature`: reject when the shared secret is unconfigured,
otherwise compare the hex HMAC-SHA256 of the raw body against the header
value.  The HMAC primitive (`hmac.new(...).hexdigest()`) is passed in as
a function `secret → body → digest`; `hmac.compare_digest` is modelled
by its functional behaviour, string equality (its constant-time nature
is a non-functional property of the primitive used). -/
def verify_signature (hmacSha256Hex : String → String → String)
    (body sig secret : String) : Bool :=
  if secret = "" then false
  else hmacSha256Hex secret body == sig

/-- `_handle_push`: resolve `repository.name` as a claim UUID (ignore the
event when it is not one), ignore empty/all-zero `after` revisions and
pushes to refs other than `refs/heads/main`, otherwise update the
claim's `current_head_sha` and dispatch a `claim.content_updated` event. -/
def handle_push (p : PushPayload) (db : ClaimsDb) :
    ClaimsDb × List DispatchedEvent :=
  match parseUUID p.repoName with
  | none => (db, [])
  | some claimId =>
    if p.after = "" ∨ p.after = zeroSha then (db, [])
    else if p.ref ≠ "refs/heads/main" then (db, [])
    else
      (updateHeadSha db claimId p.after,
        [{ eventType := "claim.content_updated", claimId := claimId,
           headSha := p.after, ref := p.ref }])

/-- `handle_forgejo_webhook`: verify the signature (401 on failure),
then handle `push` events and accept-and-ignore every other event type.
Returns the response together with the resulting database state and the
dispatched events. -/
def handle_forgejo_webhook (hmacSha256Hex : String → String → String)
    (secret : String) (req : WebhookRequest) (db : ClaimsDb) :
    WebhookResponse × ClaimsDb × List DispatchedEvent :=
  if verify_signature hmacSha256Hex req.body req.signature secret = false then
    (WebhookResponse.unauthorized, db, [])
  else if req.eventType = "push" then
    (WebhookResponse.ok, (handle_push req.payload db).1, (handle_push req.payload db).2)
  else
    (WebhookResponse.ok, db, [])

/-- **C5.** The webhook responds 401 with no database writes and no
dispatched events exactly when the supplied signature header differs
from the hex HMAC-SHA256 of the raw body under the shared secret, or the
secret is unconfigured (empty) — fail closed. -/
theorem webhook_signature_fail_closed (hmacSha256Hex : String → String → String)
    (secret : String) (req : WebhookRequest) (db : ClaimsDb) :
    handle_forgejo_webhook hmacSha256Hex secret req db =
      (WebhookResponse.unauthorized, db, []) ↔
    (secret = "" ∨ req.signature ≠ hmacSha256Hex secret req.body) := by
  by_cases hs : secret = ""
  · simp [handle_forgejo_webhook, verify_signature, hs]
  · by_cases hm : hmacSha256Hex secret req.body = req.signature
    · have hv : verify_signature hmacSha256Hex req.body req.signature secret = true := by
        simp [verify_signature, hs, hm]
      constructor
      · intro h
        rw [handle_forgejo_webhook, hv] at h
        simp only [Bool.true_eq_false, if_false] at h
        split at h <;> simp at h
      · intro h
        rcases h with h | h
        · exact absurd h hs
        · exact absurd hm.symm h
    · have hv : verify_signature hmacSha256Hex req.body req.signature secret = false := by
        simp [verify_signature, hs, hm]
      rw [handle_forgejo_webhook, hv]
      simp only [if_true, true_iff]
      exact Or.inr (fun h => hm (h.symm))

lemma lookup_updateHeadSha (db : ClaimsDb) (cid sha : String) (row : ClaimRow)
    (h : lookupClaim db cid = some row) :
    lookupClaim (updateHeadSha db cid sha) cid =
      some { row with currentHeadSha := some sha } := by
  induction db with
  | nil => simp [lookupClaim] at h
  | cons hd tl ih =>
      obtain ⟨k, r⟩ := hd
      by_cases hk : k = cid
      · subst hk
        rw [lookupClaim, if_pos rfl] at h
        injection h with h
        subst h
        have hu : updateHeadSha ((k, r) :: tl) k sha =
            (k, { r with currentHeadSha := some sha }) :: updateHeadSha tl k sha := by
          simp [updateHeadSha]
        rw [hu, lookupClaim, if_pos rfl]
      · rw [lookupClaim, if_neg hk] at h
        simp only [updateHeadSha, List.map_cons, if_neg hk]
        rw [lookupClaim, if_neg hk]
        exact ih h

lemma handle_webhook_auth (hmacSha256Hex : String → String → String)
    (secret : String) (req : WebhookRequest) (db : ClaimsDb)
    (hauth : verify_signature hmacSha256Hex req.body req.signature secret = true) :
    handle_forgejo_webhook hmacSha256Hex secret req db =
      if req.eventType = "push" then
        (WebhookResponse.ok, (handle_push req.payload db).1,
          (handle_push req.payload db).2)
      else (WebhookResponse.ok, db, []) := by
  rw [handle_forgejo_webhook, hauth]
  simp

/-- **C6.** For an authenticated request: non-push events, pushes to refs
other than the default branch, and deletion pushes (all-zero revision)
are each accepted with 200 and produce no database writes and no
dispatched event; a push to the default branch with a non-empty,
non-zero revision whose repository resolves to claim `cid` updates that
claim's `current_head_sha` to exactly the payload's `after` value and
dispatches a `claim.content_updated` event carrying the claim id, that
revision and the ref. -/
theorem webhook_push_effects (hmacSha256Hex : String → String → String)
    (secret : String) (req : WebhookRequest) (db : ClaimsDb)
    (hauth : verify_signature hmacSha256Hex req.body req.signature secret = true) :
    (req.eventType ≠ "push" →
      handle_forgejo_webhook hmacSha256Hex secret req db =
        (WebhookResponse.ok, db, [])) ∧
    (req.eventType = "push" → req.payload.ref ≠ "refs/heads/main" →
      handle_forgejo_webhook hmacSha256Hex secret req db =
        (WebhookResponse.ok, db, [])) ∧
    (req.eventType = "push" → req.payload.after = zeroSha →
      handle_forgejo_webhook hmacSha256Hex secret req db =
        (WebhookResponse.ok, db, [])) ∧
    (∀ cid row, req.eventType = "push" →
      parseUUID req.payload.repoName = some cid →
      req.payload.after ≠ "" → req.payload.after ≠ zeroSha →
      req.payload.ref = "refs/heads/main" →
      lookupClaim db cid = some row →
      handle_forgejo_webhook hmacSha256Hex secret req db =
        (WebhookResponse.ok, updateHeadSha db cid req.payload.after,
          [{ eventType := "claim.content_updated", claimId := cid,
             headSha := req.payload.after, ref := req.payload.ref }]) ∧
      lookupClaim (updateHeadSha db cid req.payload.after) cid =
        some { row with currentHeadSha := some req.payload.after }) := by
  refine ⟨?_, ?_, ?_, ?_⟩
  · intro hev
    rw [handle_webhook_auth hmacSha256Hex secret req db hauth, if_neg hev]
  · intro hev href
    rw [handle_webhook_auth hmacSha256Hex secret req db hauth, if_pos hev,
      handle_push]
    cases hp : parseUUID req.payload.repoName with
    | none => rfl
    | some cid =>
        dsimp only
        by_cases hz : req.payload.after = "" ∨ req.payload.after = zeroSha
        · rw [if_pos hz]
        · rw [if_neg hz, if_pos href]
  · intro hev hafter
    rw [handle_webhook_auth hmacSha256Hex secret req db hauth, if_pos hev,
      handle_push]
    cases hp : parseUUID req.payload.repoName with
    | none => rfl
    | some cid =>
        dsimp only
        rw [if_pos (Or.inr hafter)]
  · intro cid row hev hparse hne hzero href hrow
    refine ⟨?_, lookup_updateHeadSha db cid req.payload.after row hrow⟩
    rw [handle_webhook_auth hmacSha256Hex secret req db hauth, if_pos hev,
      handle_push, hparse]
    dsimp only
    rw [if_neg (by simp [hne, hzero] :
        ¬ (req.payload.after = "" ∨ req.payload.after = zeroSha)),
      if_neg (by simp [href] : ¬ req.payload.ref ≠ "refs/heads/main")]

/-- Witness for C6: a concrete authenticated push to `main` updates the
row and dispatches the event. -/
theorem webhook_push_effects_witness :
    handle_forgejo_webhook (fun _ _ => "sig") "topsecret"
      { body := "raw", signature := "sig", eventType := "push",
        payload := { repoName := "11111111-2222-3333-4444-555555555555",
                     after := "deadbeef", ref := "refs/heads/main",
                     commitMessages := [] } }
      [("11111111-2222-3333-4444-555555555555",
        { forgejoRepoId := some 9, currentHeadSha := none, repoStatus := "ready" })] =
      (WebhookResponse.ok,
        [("11111111-2222-3333-4444-555555555555",
          { forgejoRepoId := some 9, currentHeadSha := some "deadbeef",
            repoStatus := "ready" })],
        [{ eventType := "claim.content_updated",
           claimId := "11111111-2222-3333-4444-555555555555",
           headSha := "deadbeef", ref := "refs/heads/main" }]) := by
  have h := (webhook_push_effects (fun _ _ => "sig") "topsecret"
    { body := "raw", signature := "sig", eventType := "push",
      payload := { repoName := "11111111-2222-3333-4444-555555555555",
                   after := "deadbeef", ref := "refs/heads/main",
                   commitMessages := [] } }
    [("11111111-2222-3333-4444-555555555555",
      { forgejoRepoId := some 9, currentHeadSha := none, repoStatus := "ready" })]
    (by decide)).2.2.2
    "11111111-2222-3333-4444-555555555555"
    { forgejoRepoId := some 9, currentHeadSha := none, repoStatus := "ready" }
    rfl (by decide) (by decide) (by decide) rfl (by decide)
  rw [h.1]
  decide

/-- **C10.** An authenticated push whose `repository.name` does not parse
as a UUID is accepted with 200, performs no database writes and
dispatches no event. -/
theorem webhook_push_unknown_repo (hmacSha256Hex : String → String → String)
    (secret : String) (req : WebhookRequest) (db : ClaimsDb)
    (hauth : verify_signature hmacSha256Hex req.body req.signature secret = true)
    (hev : req.eventType = "push")
    (hname : parseUUID req.payload.repoName = none) :
    handle_forgejo_webhook hmacSha256Hex secret req db =
      (WebhookResponse.ok, db, []) := by
  rw [handle_webhook_auth hmacSha256Hex secret req db hauth, if_pos hev,
    handle_push, hname]

/-- Witness for C10: a repository name that is not a UUID. -/
theorem webhook_push_unknown_repo_witness :
    handle_forgejo_webhook (fun _ _ => "sig") "topsecret"
      { body := "raw", signature := "sig", eventType := "push",
        payload := { repoName := "not-a-claim-repo", after := "deadbeef",
                     ref := "refs/heads/main", commitMessages := [] } }
      [] = (WebhookResponse.ok, [], []) :=
  webhook_push_unknown_repo (fun _ _ => "sig") "topsecret"
    { body := "raw", signature := "sig", eventType := "push",
      payload := { repoName := "not-a-claim-repo", after := "deadbeef",
                   ref := "refs/heads/main", commitMessages := [] } }
    [] (by decide) rfl (by decide)

/-! ## External git service (`phiacta/services/git_service.py`) and the
operation handlers of the outbox worker -/

/-- `AgentInfo` from `git_service.py`. -/
structure AgentInfo where
  name : String
  email : String
deriving DecidableEq, Repr

/-- `FileContent` from `git_service.py`. -/
structure FileContent where
  path : String
  content : String
deriving DecidableEq, Repr

/-- One outbound Forgejo API operation issued through
`ForgejoGitService`. -/
inductive ExtCall where
  | createRepo (claimId : String)
  | commitFiles (claimId : String) (files : List FileContent) (message : String)
  | setupBranchProtection (claimId : String)
  | setupWebhook (claimId : String)
  | createBranch (claimId branchName fromRef : String)
  | renameBranch (claimId oldName newName : String)
deriving DecidableEq, Repr

/-- State of the external Forgejo server as observed through the
`ForgejoGitService` contract.  Repos are keyed by repository name, which
`create_repo` sets to `str(claim_id)`.  Commit revisions are modelled by
a counter (the server assigns them); `callLog` records every API call in
order, so that "no external call is made" and "calls happen in this
order" are stateable. -/
structure ForgejoState where
  repos : List (String × Nat)
  nextRepoId : Nat
  shaCounter : Nat
  commitLog : List (String × String)
  protections : List String
  webhooks : List String
  branches : List (String × String)
  callLog : List ExtCall
deriving DecidableEq, Repr

/-- Repository lookup by name (`GET /repos/{org}/{name}`: some id when
the repo exists, the `RepoNotFoundError` branch otherwise). -/
def lookupRepo : List (String × Nat) → String → Option Nat
  | [], _ => none
  | (k, v) :: tl, cid => if k = cid then some v else lookupRepo tl cid

namespace GitModel

/-- `ForgejoGitService.create_repo`: check whether the repo named
`str(claim_id)` already exists and return its id if so (idempotent
create); otherwise create it and return the freshly assigned id. -/
def create_repo (fs : ForgejoState) (cid : String) : ForgejoState × Nat :=
  let fs1 := { fs with callLog := fs.callLog ++ [ExtCall.createRepo cid] }
  match lookupRepo fs1.repos cid with
  | some rid => (fs1, rid)
  | none =>
      ({ fs1 with
          repos := fs1.repos ++ [(cid, fs1.nextRepoId)]
          nextRepoId := fs1.nextRepoId + 1 },
        fs1.nextRepoId)

/-- `ForgejoGitService.commit_files`: commit and return the new head
revision assigned by the server. -/
def commit_files (fs : ForgejoState) (cid : String) (files : List FileContent)
    (author : AgentInfo) (message : String) : ForgejoState × String :=
  let _ := author
  ({ fs with
      shaCounter := fs.shaCounter + 1
      commitLog := fs.commitLog ++ [(cid, message)]
      callLog := fs.callLog ++ [ExtCall.commitFiles cid files message] },
    "sha" ++ toString fs.shaCounter)

/-- `ForgejoGitService.setup_branch_protection`. -/
def setup_branch_protection (fs : ForgejoState) (cid : String) : ForgejoState :=
  { fs with
      protections := fs.protections ++ [cid]
      callLog := fs.callLog ++ [ExtCall.setupBranchProtection cid] }

/-- `ForgejoGitService.setup_webhook`. -/
def setup_webhook (fs : ForgejoState) (cid : String) : ForgejoState :=
  { fs with
      webhooks := fs.webhooks ++ [cid]
      callLog := fs.callLog ++ [ExtCall.setupWebhook cid] }

/-- `ForgejoGitService.create_branch`. -/
def create_branch (fs : ForgejoState) (cid branchName fromRef : String) :
    ForgejoState :=
  { fs with
      branches := fs.branches ++ [(cid, branchName)]
      callLog := fs.callLog ++ [ExtCall.createBranch cid branchName fromRef] }

/-- `ForgejoGitService.rename_branch`. -/
def rename_branch (fs : ForgejoState) (cid oldName newName : String) :
    ForgejoState :=
  { fs with
      branches := fs.branches.map (fun kv =>
        if kv.1 = cid ∧ kv.2 = oldName then (kv.1, newName) else kv)
      callLog := fs.callLog ++ [ExtCall.renameBranch cid oldName newName] }

end GitModel

/-- The combined state the worker acts on: the external server plus the
local `claims` table. -/
structure World where
  fs : ForgejoState
  claims : ClaimsDb
deriving DecidableEq, Repr

/-- A JSONB payload document with string values. -/
abbrev Payload := List (String × String)

/-- `payload[key]` / `payload.get(key)` lookup. -/
def lookupField : Payload → String → Option String
  | [], _ => none
  | (k, v) :: tl, key => if k = key then some v else lookupField tl key

/-- `payload[key]`: raises `KeyError` when absent. -/
def getField (p : Payload) (k : String) : Except String String :=
  match lookupField p k with
  | some v => Except.ok v
  | none => Except.error ("KeyError: " ++ k)

/-- `payload.get(key, default)`. -/
def getFieldD (p : Payload) (k d : String) : String :=
  (lookupField p k).getD d

/-- `UUID(payload["claim_id"])`: `KeyError` when the field is absent,
`ValueError` when it is not a UUID string. -/
def getClaimId (p : Payload) : Except String String :=
  match getField p "claim_id" with
  | Except.error e => Except.error e
  | Except.ok s =>
    match parseUUID s with
    | some cid => Except.ok cid
    | none => Except.error "badly formed hexadecimal UUID string"

/-- `OutboxWorker._sanitize_string`: truncate and strip whitespace. -/
def sanitize_string (value : String) (maxLength : Nat) : String :=
  pyStrip (value.take maxLength)

/-- `OutboxWorker._validate_format`: only `markdown`, `latex` and
`plain` are accepted. -/
def validate_format (fmt : String) : Except String String :=
  if fmt = "markdown" ∨ fmt = "latex" ∨ fmt = "plain" then Except.ok fmt
  else Except.error ("Invalid format: " ++ fmt)

/-- The extension table `{"markdown": ".md", "latex": ".tex",
"plain": ".txt"}.get(fmt, ".md")`. -/
def formatExt (fmt : String) : String :=
  if fmt = "markdown" then ".md"
  else if fmt = "latex" then ".tex"
  else if fmt = "plain" then ".txt"
  else ".md"

/-- A character of the body class of `_GIT_REF_RE`: ASCII letters,
digits, dot, underscore, slash, hyphen. -/
def refBodyChar (c : Char) : Bool :=
  c.isAlphanum || c == Char.ofNat 46 || c == Char.ofNat 95 ||
    c == Char.ofNat 47 || c == Char.ofNat 45

/-- Python `re.match` of `_GIT_REF_RE`: an ASCII alphanumeric first
character followed by at most 254 body-class characters, anchored at
both ends (in Python, `$` also matches just before one trailing
newline). -/
def gitRefRegexMatch (s : String) : Bool :=
  let l := s.toList
  let l := if l.getLast? == some (Char.ofNat 10) then l.dropLast else l
  match l with
  | [] => false
  | c :: rest => c.isAlphanum && decide (rest.length ≤ 254) && rest.all refBodyChar

/-- The explicit rejection list of `_validate_git_ref`: a `..`
occurrence, a `.lock` suffix, or a trailing `/`. -/
def isUnsafeRef (r : String) : Bool :=
  containsSub (String.toList "..") r.toList || strEndsWith r ".lock" ||
    strEndsWith r "/"

/-- `OutboxWorker._validate_git_ref`: regex check, then the explicit
rejection list; raises `ValueError` on both. -/
def validate_git_ref (ref : String) : Except String String :=
  if gitRefRegexMatch ref = false then
    Except.error ("Invalid git ref name: " ++ ref)
  else if isUnsafeRef ref then
    Except.error ("Invalid git ref name: " ++ ref)
  else Except.ok ref

/-- The step-5 write-back of `_handle_create_repo`:
`UPDATE claims SET forgejo_repo_id = :repo_id, current_head_sha = :sha,
repo_status = 'ready' WHERE id = :claim_id`. -/
def updateClaimProvisioned (db : ClaimsDb) (cid : String) (repoId : Nat)
    (sha : String) : ClaimsDb :=
  db.map (fun kv =>
    if kv.1 = cid then
      (kv.1, { kv.2 with
                forgejoRepoId := some repoId
                currentHeadSha := some sha
                repoStatus := "ready" })
    else kv)

/-- `OutboxWorker._handle_create_repo`: the compound provisioning
handler — create repo, commit the initial file, set up branch
protection, register the webhook, then write the Forgejo state back to
the claim row.  Exceptions raised before a call leave the world as it
was at that point. -/
def handle_create_repo (p : Payload) (w : World) : World × Except String Unit :=
  match getClaimId p with
  | Except.error e => (w, Except.error e)
  | Except.ok cid =>
  match getField p "title" with
  | Except.error e => (w, Except.error e)
  | Except.ok title0 =>
  match getField p "content" with
  | Except.error e => (w, Except.error e)
  | Except.ok content =>
  match validate_format (getFieldD p "format" "markdown") with
  | Except.error e => (w, Except.error e)
  | Except.ok fmt =>
  let title := sanitize_string title0 500
  let authorName := sanitize_string (getFieldD p "author_name" "phiacta-service") 100
  let authorId := getFieldD p "author_id" "service"
  let author : AgentInfo := { name := authorName, email := authorId ++ "@phiacta.local" }
  let r1 := GitModel.create_repo w.fs cid
  let files : List FileContent := [{ path := "claim" ++ formatExt fmt, content := content }]
  let r2 := GitModel.commit_files r1.1 cid files author ("Initial claim: " ++ title)
  let fs3 := GitModel.setup_branch_protection r2.1 cid
  let fs4 := GitModel.setup_webhook fs3 cid
  ({ fs := fs4, claims := updateClaimProvisioned w.claims cid r1.2 r2.2 },
    Except.ok ())

/-- `OutboxWorker._handle_commit_files`. -/
def handle_commit_files (p : Payload) (w : World) : World × Except String Unit :=
  match getClaimId p with
  | Except.error e => (w, Except.error e)
  | Except.ok cid =>
  match getField p "content" with
  | Except.error e => (w, Except.error e)
  | Except.ok content =>
  match validate_format (getFieldD p "format" "markdown") with
  | Except.error e => (w, Except.error e)
  | Except.ok fmt =>
  let message := sanitize_string (getFieldD p "message" "Update claim content") 200
  let authorName := sanitize_string (getFieldD p "author_name" "phiacta-service") 100
  let authorId := getFieldD p "author_id" "service"
  let author : AgentInfo := { name := authorName, email := authorId ++ "@phiacta.local" }
  let files : List FileContent := [{ path := "claim" ++ formatExt fmt, content := content }]
  let r := GitModel.commit_files w.fs cid files author message
  ({ fs := r.1, claims := updateHeadSha w.claims cid r.2 }, Except.ok ())

/-- `OutboxWorker._handle_create_branch`: claim id, then ref validation
of `branch_name` and `from_ref` (default `main`), then the external
call. -/
def handle_create_branch (p : Payload) (w : World) : World × Except String Unit :=
  match getClaimId p with
  | Except.error e => (w, Except.error e)
  | Except.ok cid =>
  match getField p "branch_name" with
  | Except.error e => (w, Except.error e)
  | Except.ok bn0 =>
  match validate_git_ref bn0 with
  | Except.error e => (w, Except.error e)
  | Except.ok bn =>
  match validate_git_ref (getFieldD p "from_ref" "main") with
  | Except.error e => (w, Except.error e)
  | Except.ok fr =>
  ({ w with fs := GitModel.create_branch w.fs cid bn fr }, Except.ok ())

/-- The `setup_branch_protection` arm of `_dispatch` (inline there). -/
def handle_setup_branch_protection (p : Payload) (w : World) :
    World × Except String Unit :=
  match getClaimId p with
  | Except.error e => (w, Except.error e)
  | Except.ok cid =>
      ({ w with fs := GitModel.setup_branch_protection w.fs cid }, Except.ok ())

/-- The `setup_webhook` arm of `_dispatch` (inline there). -/
def handle_setup_webhook (p : Payload) (w : World) : World × Except String Unit :=
  match getClaimId p with
  | Except.error e => (w, Except.error e)
  | Except.ok cid =>
      ({ w with fs := GitModel.setup_webhook w.fs cid }, Except.ok ())

/-- The `rename_branch` arm of `_dispatch` (inline there): claim id,
validate `old_name` and `new_name`, then the external call. -/
def handle_rename_branch (p : Payload) (w : World) : World × Except String Unit :=
  match getClaimId p with
  | Except.error e => (w, Except.error e)
  | Except.ok cid =>
  match getField p "old_name" with
  | Except.error e => (w, Except.error e)
  | Except.ok on0 =>
  match validate_git_ref on0 with
  | Except.error e => (w, Except.error e)
  | Except.ok oldName =>
  match getField p "new_name" with
  | Except.error e => (w, Except.error e)
  | Except.ok nn0 =>
  match validate_git_ref nn0 with
  | Except.error e => (w, Except.error e)
  | Except.ok newName =>
  ({ w with fs := GitModel.rename_branch w.fs cid oldName newName }, Except.ok ())

/-- `OutboxWorker._dispatch`: route an entry's operation to its handler;
unknown operations raise `ValueError`. -/
def dispatchOp (op : String) (p : Payload) (w : World) : World × Except String Unit :=
  if op = "create_repo" then handle_create_repo p w
  else if op = "commit_files" then handle_commit_files p w
  else if op = "create_branch" then handle_create_branch p w
  else if op = "setup_branch_protection" then handle_setup_branch_protection p w
  else if op = "setup_webhook" then handle_setup_webhook p w
  else if op = "rename_branch" then handle_rename_branch p w
  else (w, Except.error ("Unknown outbox operation: " ++ op))

/-- `_process_entry` with the dispatch routed through the real handlers:
returns the updated entry row together with the resulting world. -/
def processEntryWorld (e : OutboxEntry) (w : World) (now : Nat) :
    OutboxEntry × World :=
  let r := dispatchOp e.operation e.payload w
  match r.2 with
  | Except.ok _ =>
      ({ e with
          status := OutboxStatus.completed
          processedAt := some now
          attempts := e.attempts + 1 }, r.1)
  | Except.error err => (markRetry e err, r.1)

/-- `countReposFor fs.repos cid` counts the external repositories whose
name is `cid` (the claim's repos). -/
def countReposFor (repos : List (String × Nat)) (cid : String) : Nat :=
  (repos.filter (fun kv => kv.1 = cid)).length

lemma getField_of_lookup (p : Payload) (k v : String)
    (h : lookupField p k = some v) : getField p k = Except.ok v := by
  rw [getField, h]

lemma validate_git_ref_rejects (r : String) (h : isUnsafeRef r = true) :
    validate_git_ref r = Except.error ("Invalid git ref name: " ++ r) := by
  rw [validate_git_ref]
  cases hm : gitRefRegexMatch r
  · rw [if_pos rfl]
  · rw [if_neg (by simp), if_pos h]

lemma handle_create_branch_bad_branch (p : Payload) (w : World) (b : String)
    (hb : lookupField p "branch_name" = some b) (hu : isUnsafeRef b = true) :
    ∃ err, handle_create_branch p w = (w, Except.error err) := by
  rw [handle_create_branch]
  cases hc : getClaimId p with
  | error e => exact ⟨e, rfl⟩
  | ok cid =>
      dsimp only
      rw [getField_of_lookup p "branch_name" b hb]
      dsimp only
      rw [validate_git_ref_rejects b hu]
      exact ⟨"Invalid git ref name: " ++ b, rfl⟩

lemma handle_create_branch_bad_from (p : Payload) (w : World) (f : String)
    (hf : lookupField p "from_ref" = some f) (hu : isUnsafeRef f = true) :
    ∃ err, handle_create_branch p w = (w, Except.error err) := by
  rw [handle_create_branch]
  cases hc : getClaimId p with
  | error e => exact ⟨e, rfl⟩
  | ok cid =>
      dsimp only
      cases hbn : getField p "branch_name" with
      | error e => exact ⟨e, rfl⟩
      | ok bn0 =>
          dsimp only
          cases hv : validate_git_ref bn0 with
          | error e => exact ⟨e, rfl⟩
          | ok bn =>
              dsimp only
              have hd : getFieldD p "from_ref" "main" = f := by
                rw [getFieldD, hf]
                rfl
              rw [hd, validate_git_ref_rejects f hu]
              exact ⟨"Invalid git ref name: " ++ f, rfl⟩

lemma handle_rename_branch_bad_old (p : Payload) (w : World) (b : String)
    (hb : lookupField p "old_name" = some b) (hu : isUnsafeRef b = true) :
    ∃ err, handle_rename_branch p w = (w, Except.error err) := by
  rw [handle_rename_branch]
  cases hc : getClaimId p with
  | error e => exact ⟨e, rfl⟩
  | ok cid =>
      dsimp only
      rw [getField_of_lookup p "old_name" b hb]
      dsimp only
      rw [validate_git_ref_rejects b hu]
      exact ⟨"Invalid git ref name: " ++ b, rfl⟩

lemma handle_rename_branch_bad_new (p : Payload) (w : World) (b : String)
    (hb : lookupField p "new_name" = some b) (hu : isUnsafeRef b = true) :
    ∃ err, handle_rename_branch p w = (w, Except.error err) := by
  rw [handle_rename_branch]
  cases hc : getClaimId p with
  | error e => exact ⟨e, rfl⟩
  | ok cid =>
      dsimp only
      cases ho : getField p "old_name" with
      | error e => exact ⟨e, rfl⟩
      | ok on0 =>
          dsimp only
          cases hv : validate_git_ref on0 with
          | error e => exact ⟨e, rfl⟩
          | ok oldName =>
              dsimp only
              rw [getField_of_lookup p "new_name" b hb]
              dsimp only
              rw [validate_git_ref_rejects b hu]
              exact ⟨"Invalid git ref name: " ++ b, rfl⟩

/-- **C7.** A dispatched `create_branch` or `rename_branch` entry whose
branch/ref name payload field contains `..`, ends with `.lock` or ends
with `/` raises during validation before any external-store call: the
world (in particular the external call log) is unchanged and the
dispatch returns an error, so `create_branch`/`rename_branch` are never
invoked upstream. -/
theorem git_ref_validation_guards (p : Payload) (w : World) :
    (∀ b, lookupField p "branch_name" = some b → isUnsafeRef b = true →
      (dispatchOp "create_branch" p w).1 = w ∧
      ∃ err, (dispatchOp "create_branch" p w).2 = Except.error err) ∧
    (∀ f, lookupField p "from_ref" = some f → isUnsafeRef f = true →
      (dispatchOp "create_branch" p w).1 = w ∧
      ∃ err, (dispatchOp "create_branch" p w).2 = Except.error err) ∧
    (∀ b, lookupField p "old_name" = some b → isUnsafeRef b = true →
      (dispatchOp "rename_branch" p w).1 = w ∧
      ∃ err, (dispatchOp "rename_branch" p w).2 = Except.error err) ∧
    (∀ b, lookupField p "new_name" = some b → isUnsafeRef b = true →
      (dispatchOp "rename_branch" p w).1 = w ∧
      ∃ err, (dispatchOp "rename_branch" p w).2 = Except.error err) := by
  have hcb : dispatchOp "create_branch" p w = handle_create_branch p w := rfl
  have hrb : dispatchOp "rename_branch" p w = handle_rename_branch p w := rfl
  refine ⟨?_, ?_, ?_, ?_⟩
  · intro b hb hu
    obtain ⟨err, herr⟩ := handle_create_branch_bad_branch p w b hb hu
    rw [hcb, herr]
    exact ⟨rfl, err, rfl⟩
  · intro f hf hu
    obtain ⟨err, herr⟩ := handle_create_branch_bad_from p w f hf hu
    rw [hcb, herr]
    exact ⟨rfl, err, rfl⟩
  · intro b hb hu
    obtain ⟨err, herr⟩ := handle_rename_branch_bad_old p w b hb hu
    rw [hrb, herr]
    exact ⟨rfl, err, rfl⟩
  · intro b hb hu
    obtain ⟨err, herr⟩ := handle_rename_branch_bad_new p w b hb hu
    rw [hrb, herr]
    exact ⟨rfl, err, rfl⟩

/-- The empty external store with an empty claims table. -/
def emptyWorld : World :=
  { fs := { repos := [], nextRepoId := 1, shaCounter := 0, commitLog := [],
            protections := [], webhooks := [], branches := [], callLog := [] },
    claims := [] }

/-- Witness for C7: the dispatch of a `create_branch` payload naming
branch `a..b` leaves the world untouched. -/
theorem git_ref_validation_guards_witness :
    (dispatchOp "create_branch"
      [("claim_id", "11111111-2222-3333-4444-555555555555"),
       ("branch_name", "a..b")] emptyWorld).1 = emptyWorld :=
  ((git_ref_validation_guards
    [("claim_id", "11111111-2222-3333-4444-555555555555"),
     ("branch_name", "a..b")] emptyWorld).1 "a..b" (by decide) (by decide)).1

/-- **C8 counterexample.** A `create_branch` entry whose branch name is
invalid (`a..b`) fails dispatch with an invalid-input `ValueError`, yet
the worker puts it back to `status = "pending"` (its `attempts` being
below `max_attempts`), where the claim query selects it again — so the
entry *is* retried, contradicting the claim that such an entry never
returns to `pending` and is never dispatched again. -/
theorem invalid_input_retried_counterexample :
    (processEntryWorld
      { id := 0, createdAt := 0, operation := "create_branch",
        payload := [("claim_id", "11111111-2222-3333-4444-555555555555"),
                    ("branch_name", "a..b")],
        status := OutboxStatus.processing, attempts := 0, maxAttempts := 5,
        lastError := none, processedAt := none, retryAfter := none }
      emptyWorld 5).1.status = OutboxStatus.pending ∧
    claimable (processEntryWorld
      { id := 0, createdAt := 0, operation := "create_branch",
        payload := [("claim_id", "11111111-2222-3333-4444-555555555555"),
                    ("branch_name", "a..b")],
        status := OutboxStatus.processing, attempts := 0, maxAttempts := 5,
        lastError := none, processedAt := none, retryAfter := none }
      emptyWorld 5).1 = true := by
  decide

/-- **C8 amended.** An outbox entry whose dispatch fails with an
invalid-input error (here: a malformed branch name) is treated like any
other failure: the world is unchanged, `attempts` increments by one, and
the entry returns to `pending` exactly while the new attempts value is
below `max_attempts`, becoming `failed` (and only then terminal)
otherwise — invalid input is not special-cased away from the retry
path. -/
theorem invalid_input_retried_like_any_failure (e : OutboxEntry) (w : World)
    (now : Nat) (b : String)
    (hop : e.operation = "create_branch")
    (hb : lookupField e.payload "branch_name" = some b)
    (hu : isUnsafeRef b = true) :
    (processEntryWorld e w now).2 = w ∧
    (processEntryWorld e w now).1.attempts = e.attempts + 1 ∧
    ((processEntryWorld e w now).1.status = OutboxStatus.pending ↔
      e.attempts + 1 < e.maxAttempts) ∧
    ((processEntryWorld e w now).1.status = OutboxStatus.failed ↔
      e.maxAttempts ≤ e.attempts + 1) := by
  obtain ⟨err, herr⟩ := handle_create_branch_bad_branch e.payload w b hb hu
  have hd : dispatchOp e.operation e.payload w = (w, Except.error err) := by
    rw [hop]
    rw [show dispatchOp "create_branch" e.payload w = handle_create_branch e.payload w
      from rfl, herr]
  rw [processEntryWorld, hd]
  refine ⟨rfl, rfl, ?_, ?_⟩
  · simp only [markRetry]
    split
    · simp only [reduceCtorEq, false_iff, not_lt]
      omega
    · simp only [true_iff]
      omega
  · simp only [markRetry]
    split
    · next hle => simpa using hle
    · simp only [reduceCtorEq, false_iff]
      omega

/-- Witness for the amended C8: a concrete invalid-input failure with
spare attempts goes back to `pending`. -/
theorem invalid_input_retried_like_any_failure_witness :
    (processEntryWorld
      { id := 3, createdAt := 0, operation := "create_branch",
        payload := [("branch_name", "oops/")],
        status := OutboxStatus.processing, attempts := 1, maxAttempts := 5,
        lastError := none, processedAt := none, retryAfter := none }
      emptyWorld 9).1.attempts = 1 + 1 :=
  (invalid_input_retried_like_any_failure
    { id := 3, createdAt := 0, operation := "create_branch",
      payload := [("branch_name", "oops/")],
      status := OutboxStatus.processing, attempts := 1, maxAttempts := 5,
      lastError := none, processedAt := none, retryAfter := none }
    emptyWorld 9 "oops/" rfl (by decide) (by decide)).2.1

lemma create_repo_fresh (fs : ForgejoState) (cid : String)
    (h : lookupRepo fs.repos cid = none) :
    GitModel.create_repo fs cid =
      ({ fs with
          callLog := fs.callLog ++ [ExtCall.createRepo cid]
          repos := fs.repos ++ [(cid, fs.nextRepoId)]
          nextRepoId := fs.nextRepoId + 1 },
        fs.nextRepoId) := by
  rw [GitModel.create_repo]
  dsimp only
  rw [h]

lemma create_repo_existing (fs : ForgejoState) (cid : String) (rid : Nat)
    (h : lookupRepo fs.repos cid = some rid) :
    GitModel.create_repo fs cid =
      ({ fs with callLog := fs.callLog ++ [ExtCall.createRepo cid] }, rid) := by
  rw [GitModel.create_repo]
  dsimp only
  rw [h]

lemma lookupRepo_append_self (l : List (String × Nat)) (cid : String) (n : Nat)
    (h : lookupRepo l cid = none) :
    lookupRepo (l ++ [(cid, n)]) cid = some n := by
  induction l with
  | nil => simp [lookupRepo]
  | cons hd tl ih =>
      obtain ⟨k, v⟩ := hd
      rw [lookupRepo] at h
      by_cases hk : k = cid
      · rw [if_pos hk] at h
        cases h
      · rw [if_neg hk] at h
        rw [List.cons_append, lookupRepo, if_neg hk]
        exact ih h

lemma countReposFor_of_none (l : List (String × Nat)) (cid : String)
    (h : lookupRepo l cid = none) : countReposFor l cid = 0 := by
  induction l with
  | nil => rfl
  | cons hd tl ih =>
      obtain ⟨k, v⟩ := hd
      rw [lookupRepo] at h
      by_cases hk : k = cid
      · rw [if_pos hk] at h
        cases h
      · rw [if_neg hk] at h
        simpa [countReposFor, hk] using ih h

lemma countReposFor_append_one (l : List (String × Nat)) (cid : String) (n : Nat) :
    countReposFor (l ++ [(cid, n)]) cid = countReposFor l cid + 1 := by
  simp [countReposFor, List.filter_append]

lemma lookup_updateClaimProvisioned (db : ClaimsDb) (cid : String) (rid : Nat)
    (sha : String) (row : ClaimRow) (h : lookupClaim db cid = some row) :
    lookupClaim (updateClaimProvisioned db cid rid sha) cid =
      some { row with
              forgejoRepoId := some rid
              currentHeadSha := some sha
              repoStatus := "ready" } := by
  induction db with
  | nil => simp [lookupClaim] at h
  | cons hd tl ih =>
      obtain ⟨k, r⟩ := hd
      by_cases hk : k = cid
      · subst hk
        rw [lookupClaim, if_pos rfl] at h
        injection h with h
        subst h
        have hu : updateClaimProvisioned ((k, r) :: tl) k rid sha =
            (k, { r with
                   forgejoRepoId := some rid
                   currentHeadSha := some sha
                   repoStatus := "ready" }) :: updateClaimProvisioned tl k rid sha := by
          simp [updateClaimProvisioned]
        rw [hu, lookupClaim, if_pos rfl]
      · rw [lookupClaim, if_neg hk] at h
        simp only [updateClaimProvisioned, List.map_cons, if_neg hk]
        rw [lookupClaim, if_neg hk]
        exact ih h

lemma commit_files_repos (fs : ForgejoState) (cid : String)
    (files : List FileContent) (author : AgentInfo) (message : String) :
    (GitModel.commit_files fs cid files author message).1.repos = fs.repos := rfl

lemma setup_branch_protection_repos (fs : ForgejoState) (cid : String) :
    (GitModel.setup_branch_protection fs cid).repos = fs.repos := rfl

lemma setup_webhook_repos (fs : ForgejoState) (cid : String) :
    (GitModel.setup_webhook fs cid).repos = fs.repos := rfl

lemma handle_create_repo_eq (p : Payload) (w : World) (cid title0 content fmt : String)
    (h1 : getClaimId p = Except.ok cid)
    (h2 : getField p "title" = Except.ok title0)
    (h3 : getField p "content" = Except.ok content)
    (h4 : validate_format (getFieldD p "format" "markdown") = Except.ok fmt) :
    handle_create_repo p w =
      ({ fs := GitModel.setup_webhook
            (GitModel.setup_branch_protection
              (GitModel.commit_files (GitModel.create_repo w.fs cid).1 cid
                [{ path := "claim" ++ formatExt fmt, content := content }]
                { name := sanitize_string (getFieldD p "author_name" "phiacta-service") 100
                  email := getFieldD p "author_id" "service" ++ "@phiacta.local" }
                ("Initial claim: " ++ sanitize_string title0 500)).1 cid) cid,
         claims := updateClaimProvisioned w.claims cid
            (GitModel.create_repo w.fs cid).2
            (GitModel.commit_files (GitModel.create_repo w.fs cid).1 cid
              [{ path := "claim" ++ formatExt fmt, content := content }]
              { name := sanitize_string (getFieldD p "author_name" "phiacta-service") 100
                email := getFieldD p "author_id" "service" ++ "@phiacta.local" }
              ("Initial claim: " ++ sanitize_string title0 500)).2 },
        Except.ok ()) := by
  rw [handle_create_repo, h1]
  dsimp only
  rw [h2]
  dsimp only
  rw [h3]
  dsimp only
  rw [h4]

/-- **C4.** The repo-provisioning handler performs, in order: the
idempotent repository create (existence check first), the initial file
commit derived from the payload's content/format, branch protection,
webhook registration, and finally writes `forgejo_repo_id`,
`current_head_sha` and `repo_status = "ready"` back to the claim row;
invoked twice for the same claim id against a store where the repo did
not initially exist, it leaves exactly one external repository for that
claim and a terminal `repo_status = "ready"`. -/
theorem provision_repo_handler (p : Payload) (w : World)
    (cid title0 content fmt : String) (row : ClaimRow)
    (h1 : getClaimId p = Except.ok cid)
    (h2 : getField p "title" = Except.ok title0)
    (h3 : getField p "content" = Except.ok content)
    (h4 : validate_format (getFieldD p "format" "markdown") = Except.ok fmt)
    (hrow : lookupClaim w.claims cid = some row)
    (hfresh : lookupRepo w.fs.repos cid = none) :
    (handle_create_repo p w).2 = Except.ok () ∧
    (handle_create_repo p w).1.fs.callLog =
      w.fs.callLog ++
        [ExtCall.createRepo cid,
         ExtCall.commitFiles cid [{ path := "claim" ++ formatExt fmt, content := content }]
           ("Initial claim: " ++ sanitize_string title0 500),
         ExtCall.setupBranchProtection cid,
         ExtCall.setupWebhook cid] ∧
    (∃ rid sha, lookupClaim (handle_create_repo p w).1.claims cid =
      some { row with
              forgejoRepoId := some rid
              currentHeadSha := some sha
              repoStatus := "ready" }) ∧
    countReposFor (handle_create_repo p w).1.fs.repos cid = 1 ∧
    (handle_create_repo p (handle_create_repo p w).1).2 = Except.ok () ∧
    countReposFor (handle_create_repo p (handle_create_repo p w).1).1.fs.repos cid = 1 ∧
    (∃ row2, lookupClaim (handle_create_repo p (handle_create_repo p w).1).1.claims cid =
      some row2 ∧ row2.repoStatus = "ready") := by
  have hw1 := handle_create_repo_eq p w cid title0 content fmt h1 h2 h3 h4
  have hcr := create_repo_fresh w.fs cid hfresh
  -- repos of the world after the first run
  have hrepos1 : (handle_create_repo p w).1.fs.repos =
      w.fs.repos ++ [(cid, w.fs.nextRepoId)] := by
    rw [hw1]
    dsimp only
    rw [setup_webhook_repos, setup_branch_protection_repos, commit_files_repos, hcr]
  have hcount0 : countReposFor w.fs.repos cid = 0 := countReposFor_of_none _ _ hfresh
  have hcount1 : countReposFor (handle_create_repo p w).1.fs.repos cid = 1 := by
    rw [hrepos1, countReposFor_append_one, hcount0]
  have hlook1 : lookupRepo (handle_create_repo p w).1.fs.repos cid =
      some w.fs.nextRepoId := by
    rw [hrepos1]
    exact lookupRepo_append_self _ _ _ hfresh
  -- the claims row after the first run
  have hclaims1 : lookupClaim (handle_create_repo p w).1.claims cid =
      some { row with
              forgejoRepoId := some (GitModel.create_repo w.fs cid).2
              currentHeadSha := some (GitModel.commit_files (GitModel.create_repo w.fs cid).1 cid
                [{ path := "claim" ++ formatExt fmt, content := content }]
                { name := sanitize_string (getFieldD p "author_name" "phiacta-service") 100
                  email := getFieldD p "author_id" "service" ++ "@phiacta.local" }
                ("Initial claim: " ++ sanitize_string title0 500)).2
              repoStatus := "ready" } := by
    rw [hw1]
    exact lookup_updateClaimProvisioned _ _ _ _ _ hrow
  have hw2 := handle_create_repo_eq p (handle_create_repo p w).1 cid title0 content fmt
    h1 h2 h3 h4
  have hcr2 := create_repo_existing (handle_create_repo p w).1.fs cid
    w.fs.nextRepoId hlook1
  have hrepos2 : (handle_create_repo p (handle_create_repo p w).1).1.fs.repos =
      (handle_create_repo p w).1.fs.repos := by
    rw [hw2]
    dsimp only
    rw [setup_webhook_repos, setup_branch_protection_repos, commit_files_repos, hcr2]
  refine ⟨by rw [hw1], ?_, ?_, hcount1, by rw [hw2], ?_, ?_⟩
  · rw [hw1]
    dsimp only
    rw [GitModel.setup_webhook, GitModel.setup_branch_protection]
    dsimp only
    rw [show ∀ fs files author msg, (GitModel.commit_files fs cid files author msg).1.callLog
        = fs.callLog ++ [ExtCall.commitFiles cid files msg] from fun _ _ _ _ => rfl]
    rw [show (GitModel.create_repo w.fs cid).1.callLog
        = w.fs.callLog ++ [ExtCall.createRepo cid] from by rw [hcr]]
    simp [List.append_assoc]
  · exact ⟨_, _, hclaims1⟩
  · rw [hrepos2]
    exact hcount1
  · rw [hw2]
    exact ⟨_, lookup_updateClaimProvisioned _ _ _ _ _ hclaims1, rfl⟩

/-- Witness for C4: a concrete payload provisioned twice against an
initially empty store leaves exactly one repository. -/
theorem provision_repo_handler_witness :
    countReposFor
      (handle_create_repo
        [("claim_id", "11111111-2222-3333-4444-555555555555"),
         ("title", "T"), ("content", "body")]
        (handle_create_repo
          [("claim_id", "11111111-2222-3333-4444-555555555555"),
           ("title", "T"), ("content", "body")]
          { fs := { repos := [], nextRepoId := 1, shaCounter := 0, commitLog := [],
                    protections := [], webhooks := [], branches := [], callLog := [] },
            claims := [("11111111-2222-3333-4444-555555555555",
              { forgejoRepoId := none, currentHeadSha := none,
                repoStatus := "provisioning" })] }).1).1.fs.repos
      "11111111-2222-3333-4444-555555555555" = 1 :=
  (provision_repo_handler
    [("claim_id", "11111111-2222-3333-4444-555555555555"),
     ("title", "T"), ("content", "body")]
    { fs := { repos := [], nextRepoId := 1, shaCounter := 0, commitLog := [],
              protections := [], webhooks := [], branches := [], callLog := [] },
      claims := [("11111111-2222-3333-4444-555555555555",
        { forgejoRepoId := none, currentHeadSha := none,
          repoStatus := "provisioning" })] }
    "11111111-2222-3333-4444-555555555555" "T" "body" "markdown"
    { forgejoRepoId := none, currentHeadSha := none, repoStatus := "provisioning" }
    rfl rfl rfl rfl rfl rfl).2.2.2.2.2.1

/-! ## Concurrent workers (interleaving model of `_process_batch`)

Multiple worker replicas run against the same `outbox` table.  The
claiming transaction of `_process_batch` (`SELECT ... WHERE
status = 'pending' ... LIMIT 10 FOR UPDATE SKIP LOCKED` followed by the
`status = 'processing'` update, committed together) is one atomic step;
each per-entry commit of `_process_entry` is another.  Steps of
different workers interleave arbitrarily.  A worker's in-memory batch
(the `entries` list) is the set of `(worker, index)` pairs it has
claimed and not yet finished. -/

/-- Global state: the `outbox` table (rows by position) and the
in-flight claims of all workers. -/
structure SysState where
  table : List OutboxEntry
  claimed : List (Nat × Nat)
deriving DecidableEq, Repr

/-- One atomic step by a worker. -/
inductive Action where
  | claimBatch (worker : Nat) (batch : List Nat)
  | complete (worker idx now : Nat)
  | fail (worker idx : Nat) (err : String)
deriving DecidableEq, Repr

/-- Whether the action is a failing dispatch. -/
def Action.isFail : Action → Bool
  | .fail _ _ _ => true
  | _ => false

/-- The claim query's row filter at one index. -/
def pendingAt (t : List OutboxEntry) (i : Nat) : Bool :=
  match t.get? i with
  | some e => e.status == OutboxStatus.pending
  | none => false

/-- Mark the row at one index `processing`. -/
def setProcessing (t : List OutboxEntry) (i : Nat) : List OutboxEntry :=
  match t.get? i with
  | some e => t.set i { e with status := OutboxStatus.processing }
  | none => t

/-- The `UPDATE outbox SET status = 'processing' WHERE id IN ...` of the
claiming transaction. -/
def markProcessing (t : List OutboxEntry) (batch : List Nat) : List OutboxEntry :=
  batch.foldl setProcessing t

/-- Apply one worker step; `none` when its precondition fails (the
action is not enabled).  Claiming requires every claimed row to be
`pending` (the `SKIP LOCKED` select sees only pending rows; `LIMIT 10`
bounds the batch); finishing an entry requires the worker to hold it. -/
def applyAction (s : SysState) (a : Action) : Option SysState :=
  match a with
  | .claimBatch w batch =>
      if batch.Nodup ∧ batch.length ≤ 10 ∧ batch.all (pendingAt s.table) then
        some { table := markProcessing s.table batch,
               claimed := s.claimed ++ batch.map (fun i => (w, i)) }
      else none
  | .complete w i now =>
      if (w, i) ∈ s.claimed then
        match s.table.get? i with
        | some e =>
            some { table := s.table.set i (processEntry e DispatchOutcome.success now),
                   claimed := s.claimed.erase (w, i) }
        | none => none
      else none
  | .fail w i err =>
      if (w, i) ∈ s.claimed then
        match s.table.get? i with
        | some e =>
            some { table := s.table.set i (markRetry e err),
                   claimed := s.claimed.erase (w, i) }
        | none => none
      else none

/-- Run a sequence of interleaved worker steps. -/
def runTrace (s : SysState) : List Action → Option SysState
  | [] => some s
  | a :: rest =>
      match applyAction s a with
      | some s' => runTrace s' rest
      | none => none

/-- The table indices currently claimed by some worker. -/
def claimedIdx (s : SysState) : List Nat := s.claimed.map Prod.snd

/-- Sum of the `attempts` columns. -/
def sumAttempts (t : List OutboxEntry) : Nat := (t.map OutboxEntry.attempts).sum

/-- Mutual-exclusion invariant: every in-flight entry is held by exactly
one worker (its index occurs once in the claim multiset), and an entry
is `processing` exactly when some worker holds it. -/
def ClaimedInv (s : SysState) : Prop :=
  (claimedIdx s).Nodup ∧
  ∀ i e, s.table.get? i = some e →
    (e.status = OutboxStatus.processing ↔ i ∈ claimedIdx s)

/-- When every dispatch succeeds, each entry is pending or processing
with zero attempts, or completed with exactly one. -/
def TableSuccInv (t : List OutboxEntry) : Prop :=
  ∀ e ∈ t,
    (e.status = OutboxStatus.pending ∧ e.attempts = 0) ∨
    (e.status = OutboxStatus.processing ∧ e.attempts = 0) ∨
    (e.status = OutboxStatus.completed ∧ e.attempts = 1)

lemma get?_set_of_lt (l : List OutboxEntry) (i : Nat) (a : OutboxEntry)
    (hlt : i < l.length) : (l.set i a).get? i = some a := by
  rw [List.get?_eq_getElem?, List.getElem?_set_self']
  simp [List.getElem?_eq_getElem hlt]

lemma get?_set_other (l : List OutboxEntry) (i j : Nat) (a : OutboxEntry)
    (h : i ≠ j) : (l.set i a).get? j = l.get? j := by
  simp [List.get?_eq_getElem?, List.getElem?_set_ne h]

lemma setProcessing_get?_self (t : List OutboxEntry) (i : Nat) (e : OutboxEntry)
    (h : t.get? i = some e) :
    (setProcessing t i).get? i = some { e with status := OutboxStatus.processing } := by
  obtain ⟨hlt, -⟩ := List.get?_eq_some.mp h
  rw [setProcessing, h]
  exact get?_set_of_lt t i _ hlt

lemma setProcessing_get?_other (t : List OutboxEntry) (i j : Nat) (h : i ≠ j) :
    (setProcessing t i).get? j = t.get? j := by
  rw [setProcessing]
  cases hg : t.get? i
  · rfl
  · exact get?_set_other t i j _ h

lemma markProcessing_get?_not_mem (t : List OutboxEntry) (batch : List Nat)
    (i : Nat) (h : i ∉ batch) :
    (markProcessing t batch).get? i = t.get? i := by
  induction batch generalizing t with
  | nil => rfl
  | cons b bs ih =>
      rw [List.mem_cons, not_or] at h
      show (markProcessing (setProcessing t b) bs).get? i = t.get? i
      rw [ih (setProcessing t b) h.2,
        setProcessing_get?_other t b i (fun hbi => h.1 hbi.symm)]

lemma markProcessing_get?_mem (t : List OutboxEntry) (batch : List Nat)
    (i : Nat) (e : OutboxEntry) (hmem : i ∈ batch) (h : t.get? i = some e) :
    (markProcessing t batch).get? i =
      some { e with status := OutboxStatus.processing } := by
  induction batch generalizing t e with
  | nil => cases hmem
  | cons b bs ih =>
      show (markProcessing (setProcessing t b) bs).get? i = _
      by_cases hbi : b = i
      · subst hbi
        have h2 := setProcessing_get?_self t b e h
        by_cases hbs : b ∈ bs
        · rw [ih (setProcessing t b) _ hbs h2]
        · rw [markProcessing_get?_not_mem _ bs b hbs, h2]
      · rcases List.mem_cons.mp hmem with h1 | h2
        · exact absurd h1.symm hbi
        · have h3 : (setProcessing t b).get? i = some e := by
            rw [setProcessing_get?_other t b i hbi]
            exact h
          exact ih (setProcessing t b) e h2 h3

lemma setProcessing_length (t : List OutboxEntry) (i : Nat) :
    (setProcessing t i).length = t.length := by
  rw [setProcessing]
  cases h : t.get? i <;> simp

lemma markProcessing_length (t : List OutboxEntry) (batch : List Nat) :
    (markProcessing t batch).length = t.length := by
  induction batch generalizing t with
  | nil => rfl
  | cons b bs ih =>
      show (markProcessing (setProcessing t b) bs).length = t.length
      rw [ih (setProcessing t b), setProcessing_length]

lemma pendingAt_spec (t : List OutboxEntry) (i : Nat) (h : pendingAt t i = true) :
    ∃ e, t.get? i = some e ∧ e.status = OutboxStatus.pending := by
  rw [pendingAt] at h
  cases hg : t.get? i with
  | none => rw [hg] at h; cases h
  | some e =>
      rw [hg] at h
      exact ⟨e, rfl, by simpa using h⟩

lemma map_snd_erase (l : List (Nat × Nat)) (w i : Nat)
    (hnd : (l.map Prod.snd).Nodup) (hmem : (w, i) ∈ l) :
    (l.erase (w, i)).map Prod.snd = (l.map Prod.snd).erase i := by
  induction l with
  | nil => cases hmem
  | cons hd tl ih =>
      obtain ⟨w', j⟩ := hd
      by_cases he : (w', j) = (w, i)
      · cases he
        simp [List.erase_cons]
      · have hmem' : (w, i) ∈ tl := by
          rcases List.mem_cons.mp hmem with h1 | h1
          · exact absurd h1.symm he
          · exact h1
        have hji : j ≠ i := by
          intro hj
          subst hj
          exact (List.nodup_cons.mp hnd).1
            (List.mem_map.mpr ⟨(w, j), hmem', rfl⟩)
        simp only [List.erase_cons, List.map_cons]
        rw [if_neg (by simpa using he), if_neg (by simpa using hji)]
        simp only [List.map_cons]
        rw [ih (List.nodup_cons.mp hnd).2 hmem']

lemma claimedIdx_append_batch (t : List OutboxEntry) (cl : List (Nat × Nat))
    (w : Nat) (batch : List Nat) :
    claimedIdx { table := t, claimed := cl ++ batch.map (fun i => (w, i)) } =
      claimedIdx { table := t, claimed := cl } ++ batch := by
  simp [claimedIdx, Function.comp]

lemma claimedInv_finish (s : SysState) (w i : Nat) (e' : OutboxEntry)
    (hmem : (w, i) ∈ s.claimed) (hstat : e'.status ≠ OutboxStatus.processing)
    (hlen : i < s.table.length) (hinv : ClaimedInv s) :
    ClaimedInv { table := s.table.set i e', claimed := s.claimed.erase (w, i) } := by
  obtain ⟨hnd, hiff⟩ := hinv
  have hci : claimedIdx ⟨s.table.set i e', s.claimed.erase (w, i)⟩ =
      (claimedIdx s).erase i :=
    map_snd_erase s.claimed w i hnd hmem
  constructor
  · rw [hci]
    exact hnd.erase i
  · intro j e hget
    rw [hci]
    by_cases hji : i = j
    · subst hji
      rw [get?_set_of_lt s.table i e' hlen] at hget
      injection hget with hget
      subst hget
      constructor
      · intro hp
        exact absurd hp hstat
      · intro hj
        exact absurd ((hnd.mem_erase_iff).mp hj).1 (by simp)
    · rw [get?_set_other s.table i j e' hji] at hget
      rw [hnd.mem_erase_iff]
      have h0 := hiff j e hget
      constructor
      · intro hp
        exact ⟨fun hj => hji hj.symm, h0.mp hp⟩
      · intro hj
        exact h0.mpr hj.2

lemma applyAction_claimedInv (s s' : SysState) (a : Action)
    (ha : applyAction s a = some s') (hinv : ClaimedInv s) : ClaimedInv s' := by
  obtain ⟨hnd, hiff⟩ := hinv
  cases a with
  | claimBatch w batch =>
      rw [applyAction] at ha
      split at ha
      · next hc =>
          obtain ⟨hbnd, hblen, hbpend⟩ := hc
          injection ha with ha
          subst ha
          have hpend : ∀ i ∈ batch, ∃ e, s.table.get? i = some e ∧
              e.status = OutboxStatus.pending := by
            intro i hi
            exact pendingAt_spec s.table i (by
              have := List.all_eq_true.mp hbpend i hi
              simpa using this)
          constructor
          · rw [show s.table = ({ table := s.table, claimed := s.claimed } : SysState).table
              from rfl] at hpend
            rw [claimedIdx_append_batch]
            refine List.Nodup.append hnd hbnd ?_
            intro i h1 h2
            obtain ⟨e, hg, hp⟩ := hpend i h2
            have := (hiff i e hg).mpr h1
            rw [hp] at this
            cases this
          · intro i e hget
            rw [claimedIdx_append_batch]
            by_cases hib : i ∈ batch
            · obtain ⟨e0, hg0, hp0⟩ := hpend i hib
              rw [markProcessing_get?_mem s.table batch i e0 hib hg0] at hget
              injection hget with hget
              subst hget
              simp [hib]
            · rw [markProcessing_get?_not_mem s.table batch i hib] at hget
              rw [List.mem_append]
              have h0 := hiff i e hget
              constructor
              · intro hp
                exact Or.inl (h0.mp hp)
              · intro hj
                rcases hj with hj | hj
                · exact h0.mpr hj
                · exact absurd hj hib
      · cases ha
  | complete w i now =>
      rw [applyAction] at ha
      split at ha
      · next hmem =>
          cases hg : s.table.get? i with
          | none => rw [hg] at ha; cases ha
          | some e =>
              rw [hg] at ha
              injection ha with ha
              subst ha
              obtain ⟨hlt, -⟩ := List.get?_eq_some.mp hg
              exact claimedInv_finish s w i _ hmem (by simp [processEntry]) hlt
                ⟨hnd, hiff⟩
      · cases ha
  | fail w i err =>
      rw [applyAction] at ha
      split at ha
      · next hmem =>
          cases hg : s.table.get? i with
          | none => rw [hg] at ha; cases ha
          | some e =>
              rw [hg] at ha
              injection ha with ha
              subst ha
              obtain ⟨hlt, -⟩ := List.get?_eq_some.mp hg
              refine claimedInv_finish s w i _ hmem ?_ hlt ⟨hnd, hiff⟩
              simp only [markRetry]
              split <;> simp
      · cases ha

lemma applyAction_succInv (s s' : SysState) (a : Action)
    (ha : applyAction s a = some s') (hnofail : a.isFail = false)
    (hinv : ClaimedInv s) (ht : TableSuccInv s.table) : TableSuccInv s'.table := by
  cases a with
  | claimBatch w batch =>
      rw [applyAction] at ha
      split at ha
      · next hc =>
          injection ha with ha
          subst ha
          intro e' he'
          obtain ⟨i, hget⟩ := List.mem_iff_get?.mp he'
          by_cases hib : i ∈ batch
          · obtain ⟨e0, hg0, hp0⟩ := pendingAt_spec s.table i (by
              have := List.all_eq_true.mp hc.2.2 i hib
              simpa using this)
            rw [markProcessing_get?_mem s.table batch i e0 hib hg0] at hget
            injection hget with hget
            subst hget
            have h0 := ht e0 (List.get?_mem hg0)
            have ha0 : e0.attempts = 0 := by
              rcases h0 with ⟨-, h⟩ | ⟨hs, -⟩ | ⟨hs, -⟩
              · exact h
              · rw [hp0] at hs
                cases hs
              · rw [hp0] at hs
                cases hs
            exact Or.inr (Or.inl ⟨rfl, ha0⟩)
          · rw [markProcessing_get?_not_mem s.table batch i hib] at hget
            exact ht e' (List.get?_mem hget)
      · cases ha
  | complete w i now =>
      rw [applyAction] at ha
      split at ha
      · next hmem =>
          cases hg : s.table.get? i with
          | none => rw [hg] at ha; cases ha
          | some e =>
              rw [hg] at ha
              injection ha with ha
              subst ha
              obtain ⟨hlt, -⟩ := List.get?_eq_some.mp hg
              intro e' he'
              obtain ⟨j, hgj⟩ := List.mem_iff_get?.mp he'
              by_cases hij : i = j
              · subst hij
                rw [get?_set_of_lt s.table i _ hlt] at hgj
                injection hgj with hgj
                subst hgj
                have hproc : e.status = OutboxStatus.processing :=
                  (hinv.2 i e hg).mpr (List.mem_map.mpr ⟨(w, i), hmem, rfl⟩)
                have ha0 : e.attempts = 0 := by
                  rcases ht e (List.get?_mem hg) with ⟨hs, -⟩ | ⟨-, h⟩ | ⟨hs, -⟩
                  · rw [hproc] at hs
                    cases hs
                  · exact h
                  · rw [hproc] at hs
                    cases hs
                refine Or.inr (Or.inr ⟨rfl, ?_⟩)
                simp [processEntry, ha0]
              · rw [get?_set_other s.table i j _ hij] at hgj
                exact ht e' (List.get?_mem hgj)
      · cases ha
  | fail w i err => simp [Action.isFail] at hnofail

lemma applyAction_length (s s' : SysState) (a : Action)
    (ha : applyAction s a = some s') : s'.table.length = s.table.length := by
  cases a with
  | claimBatch w batch =>
      rw [applyAction] at ha
      split at ha
      · injection ha with ha
        subst ha
        exact markProcessing_length s.table batch
      · cases ha
  | complete w i now =>
      rw [applyAction] at ha
      split at ha
      · cases hg : s.table.get? i with
        | none => rw [hg] at ha; cases ha
        | some e =>
            rw [hg] at ha
            injection ha with ha
            subst ha
            exact List.length_set s.table i _
      · cases ha
  | fail w i err =>
      rw [applyAction] at ha
      split at ha
      · cases hg : s.table.get? i with
        | none => rw [hg] at ha; cases ha
        | some e =>
            rw [hg] at ha
            injection ha with ha
            subst ha
            exact List.length_set s.table i _
      · cases ha

lemma runTrace_claimedInv (tr : List Action) (s0 s : SysState)
    (h : runTrace s0 tr = some s) (hc : ClaimedInv s0) : ClaimedInv s := by
  induction tr generalizing s0 with
  | nil =>
      rw [runTrace] at h
      injection h with h
      subst h
      exact hc
  | cons a rest ih =>
      rw [runTrace] at h
      cases ha : applyAction s0 a with
      | none => rw [ha] at h; cases h
      | some s1 =>
          rw [ha] at h
          exact ih s1 h (applyAction_claimedInv s0 s1 a ha hc)

lemma runTrace_nofail_inv (tr : List Action) (s0 s : SysState)
    (h : runTrace s0 tr = some s) (hnf : ∀ a ∈ tr, a.isFail = false)
    (hc : ClaimedInv s0) (ht : TableSuccInv s0.table) :
    TableSuccInv s.table ∧ s.table.length = s0.table.length := by
  induction tr generalizing s0 with
  | nil =>
      rw [runTrace] at h
      injection h with h
      subst h
      exact ⟨ht, rfl⟩
  | cons a rest ih =>
      rw [runTrace] at h
      cases ha : applyAction s0 a with
      | none => rw [ha] at h; cases h
      | some s1 =>
          rw [ha] at h
          have hc1 := applyAction_claimedInv s0 s1 a ha hc
          have ht1 := applyAction_succInv s0 s1 a ha
            (hnf a (List.mem_cons_self a rest)) hc ht
          obtain ⟨h1, h2⟩ := ih s1 h (fun x hx => hnf x (List.mem_cons_of_mem a hx))
            hc1 ht1
          exact ⟨h1, h2.trans (applyAction_length s0 s1 a ha)⟩

lemma sumAttempts_of_all_completed (t : List OutboxEntry) (ht : TableSuccInv t)
    (hall : ∀ e ∈ t, e.status = OutboxStatus.completed) :
    sumAttempts t = t.length := by
  induction t with
  | nil => rfl
  | cons e tl ih =>
      have h1 : e.attempts = 1 := by
        rcases ht e (List.mem_cons_self e tl) with ⟨hs, -⟩ | ⟨hs, -⟩ | ⟨-, h⟩
        · have := (hall e (List.mem_cons_self e tl)).symm.trans hs
          cases this
        · have := (hall e (List.mem_cons_self e tl)).symm.trans hs
          cases this
        · exact h
      have ih' := ih (fun x hx => ht x (List.mem_cons_of_mem e hx))
        (fun x hx => hall x (List.mem_cons_of_mem e hx))
      rw [sumAttempts, List.map_cons, List.sum_cons, h1]
      rw [sumAttempts] at ih'
      rw [ih', List.length_cons]
      omega

/-- **C3.** In the interleaving model of any number of concurrent
workers over a table of `M` pre-seeded pending entries: in every
reachable state each in-flight entry is held by exactly one worker (the
claimed indices are duplicate-free, so no entry is processed by two
workers concurrently), and after any full drain in which every dispatch
succeeds (no fail steps, all rows `completed`) the sum of `attempts`
over the table is exactly `M` — each entry was dispatched exactly once,
not once per worker. -/
theorem outbox_concurrent_no_double_processing (t0 : List OutboxEntry)
    (h0 : ∀ e ∈ t0, e.status = OutboxStatus.pending ∧ e.attempts = 0) :
    (∀ tr s, runTrace { table := t0, claimed := [] } tr = some s →
      (claimedIdx s).Nodup) ∧
    (∀ tr s, runTrace { table := t0, claimed := [] } tr = some s →
      (∀ a ∈ tr, a.isFail = false) →
      (∀ e ∈ s.table, e.status = OutboxStatus.completed) →
      sumAttempts s.table = t0.length) := by
  have hc0 : ClaimedInv { table := t0, claimed := [] } := by
    constructor
    · simp [claimedIdx]
    · intro i e hget
      have hp := (h0 e (List.get?_mem hget)).1
      simp [claimedIdx, hp]
  have ht0 : TableSuccInv t0 := fun e he => Or.inl ⟨(h0 e he).1, (h0 e he).2⟩
  constructor
  · intro tr s hrun
    exact (runTrace_claimedInv tr _ s hrun hc0).1
  · intro tr s hrun hnf hall
    obtain ⟨hts, hlen⟩ := runTrace_nofail_inv tr _ s hrun hnf hc0 ht0
    rw [sumAttempts_of_all_completed s.table hts hall, hlen]

/-- Witness for C3: two workers, two pre-seeded entries, interleaved
claim and complete steps; after the drain the attempts sum to 2
(= M), not 2 × M. -/
theorem outbox_concurrent_no_double_processing_witness :
    sumAttempts
      [{ id := 0, createdAt := 0, operation := "setup_webhook", payload := [],
         status := OutboxStatus.completed, attempts := 1, maxAttempts := 5,
         lastError := none, processedAt := some 7, retryAfter := none },
       { id := 1, createdAt := 0, operation := "setup_webhook", payload := [],
         status := OutboxStatus.completed, attempts := 1, maxAttempts := 5,
         lastError := none, processedAt := some 8, retryAfter := none }] = 2 := by
  have h := (outbox_concurrent_no_double_processing
    [{ id := 0, createdAt := 0, operation := "setup_webhook", payload := [],
       status := OutboxStatus.pending, attempts := 0, maxAttempts := 5,
       lastError := none, processedAt := none, retryAfter := none },
     { id := 1, createdAt := 0, operation := "setup_webhook", payload := [],
       status := OutboxStatus.pending, attempts := 0, maxAttempts := 5,
       lastError := none, processedAt := none, retryAfter := none }]
    (by decide)).2
    [Action.claimBatch 0 [0], Action.claimBatch 1 [1],
     Action.complete 0 0 7, Action.complete 1 1 8]
    { table :=
        [{ id := 0, createdAt := 0, operation := "setup_webhook", payload := [],
           status := OutboxStatus.completed, attempts := 1, maxAttempts := 5,
           lastError := none, processedAt := some 7, retryAfter := none },
         { id := 1, createdAt := 0, operation := "setup_webhook", payload := [],
           status := OutboxStatus.completed, attempts := 1, maxAttempts := 5,
           lastError := none, processedAt := some 8, retryAfter := none }],
      claimed := [] }
    (by decide) (by decide) (by decide)
  simpa using h

end Phiacta
